import Mathlib

/-!
Shallow embedding of the Snake-With-Q-Learning trainer (src/src/main.rs).

Conventions used throughout:
* `i32` grid coordinates are modelled as `ℤ`; `usize`/`u32` counters as `ℕ`
  (with explicit wraparound `% 2^64` where Rust release-mode `usize`
  subtraction can underflow).
* `f32` learning quantities are modelled as `ℚ`.
* Rust's `VecDeque<Pos>` (snake body, front = head) is a `List Pos` whose
  head is the snake's head; the `HashSet<Pos>` mirror is a `List Pos`
  queried through `List.contains`.
* Randomness (`rand::Rng` and `thread_rng`) is an explicit oracle: a pair of
  streams indexed by a counter.  `gen_range(0..n)` reads the next natural
  modulo `n`; `gen_range(lo..hi)` on floats reads the next rational, used
  when it lies in the requested range.
* A Rust computation that can panic or loop forever (`front().unwrap()` on
  an empty deque, the rejection-sampling loop of `place_apple`) is modelled
  in `Option`: `Option.none` is the panic / divergence case, and the
  rejection loop consumes explicit fuel.
-/

/-- Grid width in cells: `WIDTH / GRID_SIZE = 800 / 20`. -/
def gridWidth : ℤ := 40

/-- Grid height in cells: `HEIGHT / GRID_SIZE = 600 / 20`. -/
def gridHeight : ℤ := 30

/-- Integer grid position (cell coordinates), `struct Pos`. -/
structure Pos where
  x : ℤ
  y : ℤ
  deriving DecidableEq, Repr

/-- Snake movement direction, `enum Dir`. -/
inductive Dir where
  | up
  | down
  | left
  | right
  deriving DecidableEq, Repr

/-- Cause of death for reward shaping, `enum DeathCause`. -/
inductive DeathCause where
  | noDeath
  | selfCollision
  | wall
  deriving DecidableEq, Repr

/-- Game state, `struct Game`: snake body (front = head), its set mirror,
direction, apple, liveness, score and flags. -/
structure Game where
  snake : List Pos
  snakeSet : List Pos
  dir : Dir
  apple : Pos
  alive : Bool
  score : ℕ
  paused : Bool
  lastDeath : DeathCause
  wrapWorld : Bool
  deriving DecidableEq, Repr

/-- Explicit randomness oracle standing for `rand` RNGs: a stream of
naturals (integer `gen_range`), a stream of rationals (float `gen_range`),
and a position counter. -/
structure Rng where
  natStream : ℕ → ℕ
  ratStream : ℕ → ℚ
  idx : ℕ

/-- Draw the next natural below `bound` (models integer `gen_range(0..bound)`). -/
def Rng.nextNat (r : Rng) (bound : ℕ) : ℕ × Rng :=
  (r.natStream r.idx % bound, { r with idx := r.idx + 1 })

/-- Draw the next rational in `[lo, hi)` (models float `gen_range(lo..hi)`);
out-of-range oracle values are replaced by `lo` so the draw is always in range. -/
def Rng.nextRat (r : Rng) (lo hi : ℚ) : ℚ × Rng :=
  (if lo ≤ r.ratStream r.idx ∧ r.ratStream r.idx < hi then r.ratStream r.idx else lo,
   { r with idx := r.idx + 1 })

/-- `Game::place_apple`: rejection sampling — draw cells uniformly until one
free of the snake is found.  The Rust `loop` is given explicit fuel;
`Option.none` models the loop running out of fuel (divergence). -/
def placeApple : ℕ → Rng → Game → Option (Game × Rng)
  | 0, _, _ => Option.none
  | fuel + 1, r, g =>
    let (xn, r1) := r.nextNat 40
    let (yn, r2) := r1.nextNat 30
    let p : Pos := ⟨(xn : ℤ), (yn : ℤ)⟩
    if p ∈ g.snakeSet then placeApple fuel r2 g
    else Option.some ({ g with apple := p }, r2)

/-- `Game::change_dir`: adopt the new direction unless it is the 180° reverse
of the current one. -/
def Game.changeDir (g : Game) (newDir : Dir) : Game :=
  let opposite : Dir :=
    match g.dir with
    | Dir.up => Dir.down
    | Dir.down => Dir.up
    | Dir.left => Dir.right
    | Dir.right => Dir.left
  if newDir ≠ opposite then { g with dir := newDir } else g

/-- Horizontal wraparound of `Game::update` in wrap mode. -/
def wrapX (x : ℤ) : ℤ :=
  if x < 0 then gridWidth - 1 else if x ≥ gridWidth then 0 else x

/-- Vertical wraparound of `Game::update` in wrap mode. -/
def wrapY (y : ℤ) : ℤ :=
  if y < 0 then gridHeight - 1 else if y ≥ gridHeight then 0 else y

/-- The candidate head position: the current head offset one cell in the
current direction (before any wraparound). -/
def candPos (head : Pos) (d : Dir) : Pos :=
  match d with
  | Dir.up => ⟨head.x, head.y - 1⟩
  | Dir.down => ⟨head.x, head.y + 1⟩
  | Dir.left => ⟨head.x - 1, head.y⟩
  | Dir.right => ⟨head.x + 1, head.y⟩

/-- Shared tail of `Game::update` after the wall handling: self-collision
check, head push, apple / tail handling.  `g0` already has `lastDeath`
reset to `noDeath`. -/
def Game.updateMove (fuel : ℕ) (r : Rng) (g0 : Game) (newHead : Pos) :
    Option (Game × Rng) :=
  if newHead ∈ g0.snakeSet then
    Option.some ({ g0 with lastDeath := DeathCause.selfCollision, alive := false }, r)
  else
    let s2 := newHead :: g0.snake
    let set2 := newHead :: g0.snakeSet
    if newHead = g0.apple then
      placeApple fuel r { g0 with snake := s2, snakeSet := set2, score := g0.score + 1 }
    else
      let tail := s2.getLast (List.cons_ne_nil _ _)
      Option.some ({ g0 with snake := s2.dropLast, snakeSet := set2.erase tail }, r)

/-- `Game::update`: one simulation tick.  `Option.none` models the panic of
`snake.front().unwrap()` on an empty body, or `place_apple` divergence. -/
def Game.update (fuel : ℕ) (r : Rng) (g : Game) : Option (Game × Rng) :=
  if ¬ g.alive ∨ g.paused then Option.some (g, r)
  else
    match g.snake.head? with
    | Option.none => Option.none
    | Option.some head =>
      let g0 := { g with lastDeath := DeathCause.noDeath }
      let cand := candPos head g0.dir
      if g0.wrapWorld then
        Game.updateMove fuel r g0 ⟨wrapX cand.x, wrapY cand.y⟩
      else if cand.x < 0 ∨ cand.x ≥ gridWidth ∨ cand.y < 0 ∨ cand.y ≥ gridHeight then
        Option.some ({ g0 with lastDeath := DeathCause.wall, alive := false }, r)
      else
        Game.updateMove fuel r g0 cand

/-- Initial snake of `Game::new_with_wrap`: three cells centred on the grid,
head at `(GRID_WIDTH/2, GRID_HEIGHT/2)`, heading right. -/
def gameStartSnake : List Pos := [⟨20, 15⟩, ⟨19, 15⟩, ⟨18, 15⟩]

/-- `Game::new_with_wrap`: fresh centred snake, then a random apple. -/
def Game.newWithWrap (fuel : ℕ) (r : Rng) (wrapWorld : Bool) : Option (Game × Rng) :=
  placeApple fuel r
    { snake := gameStartSnake, snakeSet := gameStartSnake, dir := Dir.right,
      apple := ⟨0, 0⟩, alive := true, score := 0, paused := false,
      lastDeath := DeathCause.noDeath, wrapWorld := wrapWorld }

/-- The 8 relative cells sampled by `state_key` around the head
(three ahead, the two sides, three behind). -/
def stateKeyChecks : List (ℤ × ℤ) :=
  [(-1, -1), (0, -1), (1, -1), (-1, 0), (1, 0), (-1, 1), (0, 1), (1, 1)]

/-- Classification of one sampled cell in `state_key`:
`0` empty, `1` danger (wall or body), `2` apple; the relative offset is
rotated into world space according to the current heading. -/
def visionCell (g : Game) (head : Pos) (c : ℤ × ℤ) : ℕ :=
  let wd : ℤ × ℤ :=
    match g.dir with
    | Dir.right => (c.2, c.1)
    | Dir.left => (-c.2, -c.1)
    | Dir.up => (c.1, -c.2)
    | Dir.down => (-c.1, c.2)
  let cx := head.x + wd.1
  let cy := head.y + wd.2
  if cx < 0 ∨ cx ≥ gridWidth ∨ cy < 0 ∨ cy ≥ gridHeight then 1
  else if (⟨cx, cy⟩ : Pos) ∈ g.snakeSet then 1
  else if (⟨cx, cy⟩ : Pos) = g.apple then 2
  else 0

/-- `state_key`: compact 20-bit state encoding — 16 bits of vision (2 bits
per sampled cell), 2 bits of apple bearing, 2 bits of distance bucket.
`Option.none` models the `front().unwrap()` panic on an empty body. -/
def stateKey (g : Game) : Option ℕ :=
  match g.snake.head? with
  | Option.none => Option.none
  | Option.some head =>
    let vision := stateKeyChecks.enum.foldl
      (fun k ic => k + visionCell g head ic.2 * 2 ^ (2 * ic.1)) 0
    let adx := g.apple.x - head.x
    let ady := g.apple.y - head.y
    let appleDir : ℕ :=
      match g.dir with
      | Dir.right => if ady < -1 then 0 else if ady > 1 then 2 else 1
      | Dir.left => if ady > 1 then 0 else if ady < -1 then 2 else 1
      | Dir.up => if adx < -1 then 0 else if adx > 1 then 2 else 1
      | Dir.down => if adx > 1 then 0 else if adx < -1 then 2 else 1
    let dist := adx.natAbs + ady.natAbs
    let distCat : ℕ := if dist ≤ 3 then 0 else if dist ≤ 8 then 1 else if dist ≤ 16 then 2 else 3
    Option.some (vision + appleDir * 2 ^ 16 + distCat * 2 ^ 18)

/-- Tabular Q-learning agent, `struct QAgent`.  The `AHashMap<u32, [f32; 3]>`
is an association list with unique keys; `f32` values are `ℚ`. -/
structure QAgent where
  q : List (ℕ × (ℚ × ℚ × ℚ))
  epsilon : ℚ
  minEpsilon : ℚ
  decay : ℚ
  alpha : ℚ
  gamma : ℚ
  steps : ℕ
  episodes : ℕ
  color : ℕ × ℕ × ℕ
  deriving DecidableEq, Repr

/-- `QAgent::new`: balanced hyperparameters for the 20-bit state. -/
def QAgent.new : QAgent :=
  { q := [], epsilon := 0.25, minEpsilon := 0.05, decay := 0.9992,
    alpha := 0.3, gamma := 0.95, steps := 0, episodes := 0,
    color := (100, 220, 100) }

/-- `QAgent::new_with_color`. -/
def QAgent.newWithColor (r g b : ℕ) : QAgent :=
  { QAgent.new with color := (r, g, b) }

/-- Read component `a ∈ {0,1,2}` of an action-value triple (`qs[a]`). -/
def tripleGet (t : ℚ × ℚ × ℚ) (a : ℕ) : ℚ :=
  match a with
  | 0 => t.1
  | 1 => t.2.1
  | _ => t.2.2

/-- Write component `a ∈ {0,1,2}` of an action-value triple (`qs[a] = v`). -/
def tripleSet (t : ℚ × ℚ × ℚ) (a : ℕ) (v : ℚ) : ℚ × ℚ × ℚ :=
  match a with
  | 0 => (v, t.2.1, t.2.2)
  | 1 => (t.1, v, t.2.2)
  | _ => (t.1, t.2.1, v)

/-- Store a value under key `s` in the association-list map, replacing an
existing binding (the map update performed through `entry(s).or_insert`). -/
def qUpdate : List (ℕ × (ℚ × ℚ × ℚ)) → ℕ → (ℚ × ℚ × ℚ) → List (ℕ × (ℚ × ℚ × ℚ))
  | [], s, v => [(s, v)]
  | (k, w) :: rest, s, v =>
    if k = s then (s, v) :: rest else (k, w) :: qUpdate rest s v

/-- The lazily-zero-initialised view of the Q-table: unseen keys read as
`(0,0,0)` (`QAgent::get_qs` / `unwrap_or([0.0; 3])`). -/
def qLookup (q : List (ℕ × (ℚ × ℚ × ℚ))) (s : ℕ) : ℚ × ℚ × ℚ :=
  (List.lookup s q).getD (0, 0, 0)

/-- `QAgent::learn`: TD(0) update
`Q[s][a] += α · (r + γ · max(Q[ns]) · [¬done] − Q[s][a])`. -/
def QAgent.learn (ag : QAgent) (s : ℕ) (a : ℕ) (rw : ℚ) (ns : ℕ) (done : Bool) : QAgent :=
  let nextMax : ℚ :=
    if done then 0
    else
      let nqs := (List.lookup ns ag.q).getD (0, 0, 0)
      max (max nqs.1 nqs.2.1) nqs.2.2
  let qsa := (List.lookup s ag.q).getD (0, 0, 0)
  let tdTarget := rw + ag.gamma * nextMax
  { ag with
    q := qUpdate ag.q s (tripleSet qsa a (tripleGet qsa a + ag.alpha * (tdTarget - tripleGet qsa a))) }

/-- `QAgent::boost_exploration`: reset ε and α to elevated fixed values. -/
def QAgent.boostExploration (ag : QAgent) : QAgent :=
  { ag with epsilon := 0.35, alpha := 0.45 }

/-- Add independent noise from `[-σ, σ)` to the three values of one entry
(the inner loop of `mutate_qagent`). -/
def mutateTriple (r : Rng) (t : ℚ × ℚ × ℚ) (sigma : ℚ) : (ℚ × ℚ × ℚ) × Rng :=
  let (d0, r0) := r.nextRat (-sigma) sigma
  let (d1, r1) := r0.nextRat (-sigma) sigma
  let (d2, r2) := r1.nextRat (-sigma) sigma
  ((t.1 + d0, t.2.1 + d1, t.2.2 + d2), r2)

/-- Noise pass over every stored state of a Q-table (`agent.q.values_mut()`). -/
def mutateQList (sigma : ℚ) : Rng → List (ℕ × (ℚ × ℚ × ℚ)) → List (ℕ × (ℚ × ℚ × ℚ)) × Rng
  | r, [] => ([], r)
  | r, (k, t) :: rest =>
    let (t', r1) := mutateTriple r t sigma
    let (rest', r2) := mutateQList sigma r1 rest
    ((k, t') :: rest', r2)

/-- `mutate_qagent`: uniform noise on every stored action-value, then one
ε-decay step `ε ← max(ε · decay, ε_min)`. -/
def mutateQAgent (r : Rng) (ag : QAgent) (sigma : ℚ) : QAgent × Rng :=
  let (q', r1) := mutateQList sigma r ag.q
  ({ ag with q := q', epsilon := max (ag.epsilon * ag.decay) ag.minEpsilon }, r1)

/-- Rust `as u8` on an `f32`: truncate toward zero, saturating into `0..=255`. -/
def ratToU8 (q : ℚ) : ℕ :=
  if q < 0 then 0 else min q.floor.toNat 255

/-- `hsl_to_rgb`: HSL to RGB conversion over exact rationals. -/
def hslToRgb (h s l : ℚ) : ℕ × ℕ × ℕ :=
  let c := (1 - |2 * l - 1|) * s
  let hPrime := h / 60
  let x := c * (1 - |hPrime - 2 * ((hPrime / 2).floor : ℚ) - 1|)
  let hi : ℤ := hPrime.floor
  let rgb1 : ℚ × ℚ × ℚ :=
    if hi = 0 then (c, x, 0)
    else if hi = 1 then (x, c, 0)
    else if hi = 2 then (0, c, x)
    else if hi = 3 then (0, x, c)
    else if hi = 4 then (x, 0, c)
    else if hi = 5 then (c, 0, x)
    else (c, x, 0)
  let m := l - c / 2
  (ratToU8 ((rgb1.1 + m) * 255), ratToU8 ((rgb1.2.1 + m) * 255), ratToU8 ((rgb1.2.2 + m) * 255))

/-- `generate_population_colors`: one HSL hue sample per slot. -/
def generatePopulationColors (popSize : ℕ) : List (ℕ × ℕ × ℕ) :=
  (List.range popSize).map fun i : ℕ =>
    hslToRgb ((i : ℚ) / (popSize : ℚ) * 360) 0.85 0.65

/-- Clamp an `i32` channel value into `0..=255` (`.clamp(0, 255) as u8`). -/
def clampChannel (z : ℤ) : ℕ :=
  if z < 0 then 0 else if z > 255 then 255 else z.toNat

/-- `mutate_color`: per-channel shift drawn from `-range..=range`, clamped.
Rust draws from a fresh entropy RNG; the draws come from the same oracle here. -/
def mutateColor (r : Rng) (color : ℕ × ℕ × ℕ) (range : ℕ) : (ℕ × ℕ × ℕ) × Rng :=
  let (d0, r0) := r.nextNat (2 * range + 1)
  let (d1, r1) := r0.nextNat (2 * range + 1)
  let (d2, r2) := r1.nextNat (2 * range + 1)
  ((clampChannel ((color.1 : ℤ) + (d0 : ℤ) - range),
    clampChannel ((color.2.1 : ℤ) + (d1 : ℤ) - range),
    clampChannel ((color.2.2 : ℤ) + (d2 : ℤ) - range)), r2)

/-- Evolutionary trainer state, `struct EvoTrainer`. -/
structure EvoTrainer where
  training : Bool
  solved : Bool
  pop : List QAgent
  popSize : ℕ
  current : ℕ
  epoch : ℕ
  epochBest : List ℕ
  scores : List ℕ
  stepLimit : ℕ
  stepsTaken : ℕ
  targetScore : ℕ
  bestScore : ℕ
  games : List Game
  champion : Option QAgent
  championScore : ℕ
  championEpoch : ℕ
  epochsWithoutImprovement : ℕ
  restartCount : ℕ
  wrapWorld : Bool
  deriving Repr

/-- Release-mode `usize` subtraction: wraparound modulo `2^64`. -/
def usizeSub (a b : ℕ) : ℕ := (a + 2 ^ 64 - b) % 2 ^ 64

/-- The loop of `reset_epoch` replacing `games[i]` for `i < pop_size` with
fresh games; `Option.none` models an index out of bounds or apple-placement
divergence. -/
def resetGames (fuel : ℕ) (wrap : Bool) : ℕ → Rng → List Game → Option (List Game × Rng)
  | 0, r, gs => Option.some (gs, r)
  | _ + 1, _, [] => Option.none
  | n + 1, r, _ :: gs =>
    match Game.newWithWrap fuel r wrap with
    | Option.none => Option.none
    | Option.some (fresh, r1) =>
      match resetGames fuel wrap n r1 gs with
      | Option.none => Option.none
      | Option.some (rest, r2) => Option.some (fresh :: rest, r2)

/-- `EvoTrainer::reset_epoch`: zero the per-epoch counters and scores and
restart every game. -/
def EvoTrainer.resetEpoch (fuel : ℕ) (r : Rng) (t : EvoTrainer) : Option (EvoTrainer × Rng) :=
  match resetGames fuel t.wrapWorld t.popSize r t.games with
  | Option.none => Option.none
  | Option.some (gs, r1) =>
    Option.some ({ t with
                   current := 0, stepsTaken := 0,
                   scores := t.scores.map (fun _ => 0), games := gs }, r1)

/-- Run a push-one-agent step `count` times, appending to the accumulator
(the `while new_pop.len() < pop_size` / `for _ in 1..k` loops of `reproduce`). -/
def padLoop (mk : Rng → QAgent × Rng) : ℕ → List QAgent → Rng → List QAgent × Rng
  | 0, acc, r => (acc, r)
  | n + 1, acc, r =>
    let (a, r1) := mk r
    padLoop mk n (acc ++ [a]) r1

/-- One mutated champion child: optional exploration boost, Q-table mutation
with magnitude `sigma`, colour mutation of the champion's colour. -/
def champChild (champ : QAgent) (sigma : ℚ) (colorRange : ℕ) (boost : Bool) (r : Rng) :
    QAgent × Rng :=
  let child := if boost then champ.boostExploration else champ
  let (child1, r1) := mutateQAgent r child sigma
  let (c, r2) := mutateColor r1 champ.color colorRange
  ({ child1 with color := c }, r2)

/-- Fresh random agents, one per colour; tier 5 also boosts their exploration. -/
def freshAgents (colors : List (ℕ × ℕ × ℕ)) (boost : Bool) : List QAgent :=
  colors.map fun c =>
    let a := QAgent.new
    let a := if boost then a.boostExploration else a
    { a with color := c }

/-- The population built by stagnation-restart tier `rc` (the
`match self.restart_count` of `reproduce`): champion plus a tier-dependent
share of boosted mutated children, topped up with fresh agents. -/
def tierPop (r : Rng) (rc : ℕ) (champ : QAgent) (n : ℕ) : List QAgent × Rng :=
  match rc with
  | 1 => padLoop (champChild champ 0.25 20 true) (n - 1) [champ] r
  | 2 =>
    let (acc, r1) := padLoop (champChild champ 0.4 30 true) (n / 2 - 1) [champ] r
    (acc ++ freshAgents (generatePopulationColors (usizeSub n acc.length)) false, r1)
  | 3 =>
    let (acc, r1) := padLoop (champChild champ 0.35 40 true) (n * 3 / 10 - 1) [champ] r
    (acc ++ freshAgents (generatePopulationColors (usizeSub n acc.length)) false, r1)
  | 4 =>
    let (acc, r1) := padLoop (champChild champ 0.6 50 true) (n / 5 - 1) [champ] r
    (acc ++ freshAgents (generatePopulationColors (usizeSub n acc.length)) false, r1)
  | _ =>
    let (acc, r1) := padLoop (champChild champ 0.8 60 true) (n / 10 - 1) [champ] r
    (acc ++ freshAgents (generatePopulationColors (usizeSub n acc.length)) true, r1)

/-- `(0..pop_size)` sorted by score descending (`sort_by_key(Reverse(score))`,
a stable sort). -/
def sortIdx (scores : List ℕ) (n : ℕ) : List ℕ :=
  List.insertionSort (fun i j => scores.getD j 0 ≤ scores.getD i 0) (List.range n)

/-- Blend two parents' colours with the given ratio (`as u8` saturating). -/
def blendColor (c1 c2 : ℕ × ℕ × ℕ) (ratio : ℚ) : ℕ × ℕ × ℕ :=
  (ratToU8 ((c1.1 : ℚ) * (1 - ratio) + (c2.1 : ℚ) * ratio),
   ratToU8 ((c1.2.1 : ℚ) * (1 - ratio) + (c2.2.1 : ℚ) * ratio),
   ratToU8 ((c1.2.2 : ℚ) * (1 - ratio) + (c2.2.2 : ℚ) * ratio))

/-- One steady-state child: two parents drawn from the top `top_k`, the first
cloned and mutated, colours blended then mutated. -/
def steadyChild (idxs : List ℕ) (topK : ℕ) (pop : List QAgent) (r : Rng) : QAgent × Rng :=
  let (p1pos, r1) := r.nextNat topK
  let (p2pos, r2) := r1.nextNat topK
  let parent1 := pop.getD (idxs.getD p1pos 0) QAgent.new
  let parent2 := pop.getD (idxs.getD p2pos 0) QAgent.new
  let (child1, r3) := mutateQAgent r2 parent1 0.15
  let (ratio, r4) := r3.nextRat 0.3 0.7
  let (c, r5) := mutateColor r4 (blendColor parent1.color parent2.color ratio) 15
  ({ child1 with color := c }, r5)

/-- The steady-state (non-champion, non-stagnant) generation: top-3 elites,
4 mutated/blended children, 3 fresh agents, then pad with fresh agents or
truncate to the population size. -/
def steadyPop (r : Rng) (idxs : List ℕ) (pop : List QAgent) (n : ℕ) : List QAgent × Rng :=
  let topK := min 3 n
  let elites := (idxs.take topK).map fun i => pop.getD i QAgent.new
  let (acc2, r1) := padLoop (steadyChild idxs topK pop) 4 elites r
  let numFresh := min 3 (usizeSub n acc2.length)
  let acc3 := acc2 ++ freshAgents (generatePopulationColors numFresh) false
  if acc3.length < n then
    (acc3 ++ freshAgents (generatePopulationColors (n - acc3.length)) false, r1)
  else if n < acc3.length then (acc3.take n, r1)
  else (acc3, r1)

/-- Index of the top-ranked agent in `reproduce`:
`*idxs.first().unwrap_or(&0)`. -/
def reproBestIdx (t : EvoTrainer) : ℕ := (sortIdx t.scores t.popSize).headD 0

/-- The top score of the finished epoch, `self.scores[best_idx]`. -/
def reproBestScore (t : EvoTrainer) : ℕ := t.scores.getD (reproBestIdx t) 0

/-- The branchy middle of `reproduce`: build the next generation together
with the updated restart counter and stagnation counter.  The branches are
stagnation-restart (counter past the adaptive threshold, some champion),
new-champion elitism, and the steady state. -/
def reproduceCore (r : Rng) (t1 : EvoTrainer) (idxs : List ℕ) (newChampion : Bool) :
    (List QAgent × ℕ × ℕ) × Rng :=
  match t1.champion with
  | Option.some champ =>
    if 1000 + t1.restartCount * 500 ≤ t1.epochsWithoutImprovement then
      let rc := (if 5 ≤ t1.restartCount then 0 else t1.restartCount) + 1
      let (newPop, r1) := tierPop r rc champ t1.popSize
      ((newPop, rc, 0), r1)
    else if newChampion then
      let (newPop, r1) := padLoop (champChild champ 0.15 25 false) (t1.popSize - 1) [champ] r
      ((newPop, 0, t1.epochsWithoutImprovement), r1)
    else
      let (newPop, r1) := steadyPop r idxs t1.pop t1.popSize
      ((newPop, t1.restartCount, t1.epochsWithoutImprovement), r1)
  | Option.none =>
    let (newPop, r1) := steadyPop r idxs t1.pop t1.popSize
    ((newPop, t1.restartCount, t1.epochsWithoutImprovement), r1)

/-- The bookkeeping prefix of `reproduce`: push the epoch best, fold it into
`best_score`, and either install a new champion (resetting the stagnation
counter) or bump the stagnation counter. -/
def reproT1 (t : EvoTrainer) : EvoTrainer :=
  if t.championScore < reproBestScore t then
    { t with epochBest := t.epochBest ++ [reproBestScore t],
             bestScore := max t.bestScore (reproBestScore t),
             championScore := reproBestScore t, championEpoch := t.epoch,
             champion := Option.some (t.pop.getD (reproBestIdx t) QAgent.new),
             epochsWithoutImprovement := 0 }
  else
    { t with epochBest := t.epochBest ++ [reproBestScore t],
             bestScore := max t.bestScore (reproBestScore t),
             epochsWithoutImprovement := t.epochsWithoutImprovement + 1 }

/-- `EvoTrainer::reproduce`: rank by score, update best/champion bookkeeping
(`reproT1`), build the next generation in one of the branches
(`reproduceCore`), then advance the epoch counter and reset the epoch. -/
def EvoTrainer.reproduce (fuel : ℕ) (r : Rng) (t : EvoTrainer) : Option (EvoTrainer × Rng) :=
  let t1 := reproT1 t
  let res := reproduceCore r t1 (sortIdx t.scores t.popSize)
    (decide (t.championScore < reproBestScore t))
  EvoTrainer.resetEpoch fuel res.2
    { t1 with pop := res.1.1, restartCount := res.1.2.1,
              epochsWithoutImprovement := res.1.2.2, epoch := t1.epoch + 1 }

/-- The per-tick "all agents done" aggregation of the training loop in `main`:
done unless some agent is alive with a score below the target. -/
def allAgentsDone (scores : List ℕ) (games : List Game) (target : ℕ) : Bool :=
  ! (scores.zip games).any fun p => p.2.alive && decide (p.1 < target)

/-- The leader scan of `main`: running `(top1, top2, top1_idx)` over the
enumerated scores, starting from `(0, 0, None)`. -/
def leaderFold : List ℕ → ℕ → ℕ × ℕ × Option ℕ → ℕ × ℕ × Option ℕ
  | [], _, st => st
  | sc :: rest, i, (t1, t2, idx) =>
    if t1 < sc then leaderFold rest (i + 1) (sc, t1, Option.some i)
    else if t2 < sc then leaderFold rest (i + 1) (t1, sc, idx)
    else leaderFold rest (i + 1) (t1, t2, idx)

/-- `leader_protected` in `main`: a unique top scorer whose game is alive
bypasses the step limit. -/
def leaderProtected (scores : List ℕ) (games : List Game) : Bool :=
  match leaderFold scores 0 (0, 0, Option.none) with
  | (top1, top2, Option.some i) =>
    decide (top2 < top1) && ((games[i]?).map Game.alive).getD false
  | (_, _, Option.none) => false

/-- The epoch-termination check of the training loop:
`all_done || (steps_taken >= step_limit && !leader_protected)`. -/
def epochEnds (allDone : Bool) (stepsTaken stepLimit : ℕ) (prot : Bool) : Bool :=
  allDone || (decide (stepLimit ≤ stepsTaken) && !prot)

/-- A cell lies inside the 40×30 grid. -/
def inGrid (p : Pos) : Prop :=
  0 ≤ p.x ∧ p.x < gridWidth ∧ 0 ≤ p.y ∧ p.y < gridHeight

instance : DecidablePred inGrid := fun p => by
  unfold inGrid; infer_instance

/-- A fixed randomness oracle used by concrete instantiations. -/
def demoRng : Rng := ⟨fun _ => 0, fun _ => 0, 0⟩

/-- A plain mid-game snapshot: fresh centred snake, apple off to the right. -/
def demoGame : Game :=
  { snake := gameStartSnake, snakeSet := gameStartSnake, dir := Dir.right,
    apple := ⟨30, 15⟩, alive := true, score := 0, paused := false,
    lastDeath := DeathCause.noDeath, wrapWorld := true }

/-- A degenerate snapshot whose snake body is the empty sequence. -/
def emptySnakeGame : Game :=
  { snake := [], snakeSet := [], dir := Dir.right,
    apple := ⟨0, 0⟩, alive := true, score := 0, paused := false,
    lastDeath := DeathCause.noDeath, wrapWorld := true }

/-- Successful apple placement only rewrites the apple (to a cell free of the
snake) and the RNG: body, set, score, liveness and death cause are untouched. -/
theorem placeApple_some (fuel : ℕ) (r : Rng) (g : Game) (p : Game × Rng)
    (h : placeApple fuel r g = Option.some p) :
    p.1.snake = g.snake ∧ p.1.snakeSet = g.snakeSet ∧ p.1.score = g.score ∧
    p.1.alive = g.alive ∧ p.1.lastDeath = g.lastDeath ∧ p.1.apple ∉ g.snakeSet := by
  induction fuel generalizing r with
  | zero => simp [placeApple] at h
  | succ n ih =>
    rw [placeApple] at h
    simp only [Rng.nextNat] at h
    split at h
    · exact ih _ h
    · rename_i hfree
      cases h
      exact ⟨rfl, rfl, rfl, rfl, rfl, hfree⟩

/-- If every sampled cell is occupied, the rejection loop never succeeds. -/
theorem placeApple_none_of_full (g : Game)
    (hfull : ∀ a b : ℕ, a < 40 → b < 30 → (⟨(a : ℤ), (b : ℤ)⟩ : Pos) ∈ g.snakeSet) :
    ∀ fuel r, placeApple fuel r g = Option.none := by
  intro fuel
  induction fuel with
  | zero => intro r; rfl
  | succ n ih =>
    intro r
    rw [placeApple]
    simp only [Rng.nextNat]
    rw [if_pos (hfull _ _ (Nat.mod_lt _ (by norm_num)) (Nat.mod_lt _ (by norm_num)))]
    exact ih _

/-- Claim C3 (counterexample to the claim as stated): on a game whose snake
body is empty, the state encoder hits `snake.front().unwrap()` and panics —
modelled as `Option.none` — so "the encoder never panics, in particular not
on an empty snake body" is false of the code. -/
theorem claim_C3_cex : stateKey emptySnakeGame = Option.none := rfl

/-- Claim C3 (amended): the state encoder is a pure function of the game
snapshot — encoding the same unmutated game twice trivially yields the same
key — and it is total (never panics) on every game whose snake body is
non-empty; only the empty body hits the `front().unwrap()` panic. -/
theorem claim_C3 (g : Game) (hd : Pos) (h : g.snake.head? = Option.some hd) :
    stateKey g = stateKey g ∧ (stateKey g).isSome = true := by
  refine ⟨rfl, ?_⟩
  unfold stateKey
  rw [h]
  rfl

/-- Concrete instance for C3: the demo snapshot has a non-empty body and the
encoder returns a key on it. -/
theorem claim_C3_witness :
    demoGame.snake.head? = Option.some ⟨20, 15⟩ ∧ (stateKey demoGame).isSome = true :=
  ⟨by decide, (claim_C3 demoGame ⟨20, 15⟩ (by decide)).2⟩

/-- Claim C5: for an alive, unpaused game whose body cells all lie in the
grid, a candidate head that coincides with a body cell makes the step die of
`SelfCollision` and change nothing else — even when the apple sits on that
very cell (the collision check precedes the apple check), no score
increment, growth, or apple replacement happens and the RNG is untouched. -/
theorem claim_C5 (g : Game) (hd : Pos) (fuel : ℕ) (r : Rng)
    (halive : g.alive = true) (hpaused : g.paused = false)
    (hhead : g.snake.head? = Option.some hd)
    (hbody : ∀ p ∈ g.snakeSet, inGrid p)
    (hcand : candPos hd g.dir ∈ g.snakeSet) :
    Game.update fuel r g =
      Option.some ({ g with lastDeath := DeathCause.selfCollision, alive := false }, r) := by
  obtain ⟨hx0, hx40, hy0, hy30⟩ := hbody _ hcand
  unfold Game.update
  rw [halive, hpaused, hhead]
  simp only [not_true, false_or, if_false, Bool.false_eq_true]
  have hwrapx : wrapX (candPos hd g.dir).x = (candPos hd g.dir).x := by
    unfold wrapX; rw [if_neg (by omega), if_neg (by omega)]
  have hwrapy : wrapY (candPos hd g.dir).y = (candPos hd g.dir).y := by
    unfold wrapY; rw [if_neg (by omega), if_neg (by omega)]
  cases hw : g.wrapWorld with
  | true =>
    simp only [hw, if_true]
    unfold Game.updateMove
    rw [hwrapx, hwrapy]
    rw [if_pos hcand]
  | false =>
    simp only [hw, Bool.false_eq_true, if_false]
    rw [if_neg (by push_neg; exact ⟨hx0, hx40, hy0, hy30⟩)]
    unfold Game.updateMove
    rw [if_pos hcand]

/-- Concrete instance for C5: head at (5,5) moving right into the body cell
(6,5) on which the apple also sits; the step is a pure self-collision death. -/
theorem claim_C5_witness :
    Game.update 1 demoRng
      { snake := [⟨5, 5⟩, ⟨6, 5⟩, ⟨7, 5⟩], snakeSet := [⟨5, 5⟩, ⟨6, 5⟩, ⟨7, 5⟩],
        dir := Dir.right, apple := ⟨6, 5⟩, alive := true, score := 3, paused := false,
        lastDeath := DeathCause.noDeath, wrapWorld := true } =
      Option.some
        ({ snake := [⟨5, 5⟩, ⟨6, 5⟩, ⟨7, 5⟩], snakeSet := [⟨5, 5⟩, ⟨6, 5⟩, ⟨7, 5⟩],
           dir := Dir.right, apple := ⟨6, 5⟩, alive := false, score := 3, paused := false,
           lastDeath := DeathCause.selfCollision, wrapWorld := true }, demoRng) :=
  claim_C5 _ ⟨5, 5⟩ 1 demoRng rfl rfl rfl (by decide) (by decide)

/-- A wrap-mode game about to wrap left from x = 0 into its own body:
head (0,5) heading left, body cell at (39,5). -/
def cexWrapGame : Game :=
  { snake := [⟨0, 5⟩, ⟨39, 5⟩, ⟨38, 5⟩], snakeSet := [⟨0, 5⟩, ⟨39, 5⟩, ⟨38, 5⟩],
    dir := Dir.left, apple := ⟨10, 10⟩, alive := true, score := 0, paused := false,
    lastDeath := DeathCause.noDeath, wrapWorld := true }

/-- Claim C4 (counterexample to the claim as stated): in wrap mode an
out-of-range candidate head does wrap, but the snake does NOT always stay
alive — here the wrapped cell (39,5) is occupied by the body, so the step
kills the snake with `SelfCollision` even though wrap mode is on. -/
theorem claim_C4_cex :
    cexWrapGame.alive = true ∧ cexWrapGame.paused = false ∧
    cexWrapGame.wrapWorld = true ∧ cexWrapGame.snake.head? = Option.some ⟨0, 5⟩ ∧
    ¬ inGrid (candPos ⟨0, 5⟩ cexWrapGame.dir) ∧
    Game.update 1 demoRng cexWrapGame =
      Option.some ({ cexWrapGame with
                     lastDeath := DeathCause.selfCollision,
                     alive := false }, demoRng) :=
  ⟨rfl, rfl, rfl, rfl, by decide, rfl⟩

/-- Claim C4 (amended): for an alive, unpaused game whose candidate head
(head offset one cell in the current direction) is out of the grid range:
with wrap mode on, the coordinate wraps modulo the grid dimensions and the
step proceeds at the wrapped cell — the snake stays alive when the wrapped
cell is free and not the apple (if the wrapped cell is a body cell it dies
of self-collision; if it is the apple the usual eating rules apply); with
wrap mode off, the step sets alive to false with death cause `Wall` and
returns before mutating the body, so body, score and apple are unchanged. -/
theorem claim_C4 (g : Game) (hd : Pos) (fuel : ℕ) (r : Rng)
    (halive : g.alive = true) (hpaused : g.paused = false)
    (hhead : g.snake.head? = Option.some hd)
    (hout : ¬ inGrid (candPos hd g.dir)) :
    (g.wrapWorld = true →
      (⟨wrapX (candPos hd g.dir).x, wrapY (candPos hd g.dir).y⟩ : Pos) ∉ g.snakeSet →
      (⟨wrapX (candPos hd g.dir).x, wrapY (candPos hd g.dir).y⟩ : Pos) ≠ g.apple →
      (Game.update fuel r g).elim False fun p =>
        p.1.alive = true ∧
        p.1.snake.head? =
          Option.some ⟨wrapX (candPos hd g.dir).x, wrapY (candPos hd g.dir).y⟩ ∧
        p.1.score = g.score) ∧
    (g.wrapWorld = true →
      (⟨wrapX (candPos hd g.dir).x, wrapY (candPos hd g.dir).y⟩ : Pos) ∈ g.snakeSet →
      (Game.update fuel r g).elim False fun p =>
        p.1.alive = false ∧ p.1.lastDeath = DeathCause.selfCollision) ∧
    (g.wrapWorld = false →
      (Game.update fuel r g).elim False fun p =>
        p.1.alive = false ∧ p.1.lastDeath = DeathCause.wall ∧
        p.1.snake = g.snake ∧ p.1.score = g.score ∧ p.1.apple = g.apple) := by
  obtain ⟨tl, hsn⟩ : ∃ tl, g.snake = hd :: tl := by
    cases hsn : g.snake with
    | nil => rw [hsn] at hhead; cases hhead
    | cons a tl =>
      rw [hsn] at hhead
      cases hhead
      exact ⟨tl, rfl⟩
  refine ⟨?_, ?_, ?_⟩
  · intro hw hfree hnotapple
    unfold Game.update
    rw [halive, hpaused, hhead]
    simp only [not_true, false_or, if_false, Bool.false_eq_true, hw, if_true]
    unfold Game.updateMove
    rw [if_neg hfree, if_neg hnotapple]
    rw [hsn]
    exact ⟨rfl, rfl, rfl⟩
  · intro hw hmem
    unfold Game.update
    rw [halive, hpaused, hhead]
    simp only [not_true, false_or, if_false, Bool.false_eq_true, hw, if_true]
    unfold Game.updateMove
    rw [if_pos hmem]
    exact ⟨rfl, rfl⟩
  · intro hw
    unfold Game.update
    rw [halive, hpaused, hhead]
    simp only [not_true, false_or, if_false, Bool.false_eq_true, hw, if_true]
    rw [if_pos ?_]
    · exact ⟨rfl, rfl, rfl, rfl, rfl⟩
    · unfold inGrid at hout
      push_neg at hout
      by_contra hc
      push_neg at hc
      obtain ⟨h1, h2, h3, h4⟩ := hc
      omega

/-- A snake at the left edge about to wrap onto a free cell. -/
def wrapDemoGame : Game :=
  { snake := [⟨0, 5⟩, ⟨1, 5⟩, ⟨2, 5⟩], snakeSet := [⟨0, 5⟩, ⟨1, 5⟩, ⟨2, 5⟩],
    dir := Dir.left, apple := ⟨10, 10⟩, alive := true, score := 0, paused := false,
    lastDeath := DeathCause.noDeath, wrapWorld := true }

/-- The same snapshot with solid walls. -/
def solidDemoGame : Game := { wrapDemoGame with wrapWorld := false }

/-- Concrete instances for C4: moving left from x = 0 with wrap on lands
alive at x = 39 on the same row; the same move with wrap off dies of `Wall`
with body, score and apple untouched. -/
theorem claim_C4_witness :
    ((Game.update 1 demoRng wrapDemoGame).elim False fun p =>
      p.1.alive = true ∧ p.1.snake.head? = Option.some ⟨39, 5⟩ ∧ p.1.score = 0) ∧
    ((Game.update 1 demoRng solidDemoGame).elim False fun p =>
      p.1.alive = false ∧ p.1.lastDeath = DeathCause.wall ∧
      p.1.snake = [⟨0, 5⟩, ⟨1, 5⟩, ⟨2, 5⟩] ∧ p.1.score = 0 ∧ p.1.apple = ⟨10, 10⟩) :=
  ⟨((claim_C4 wrapDemoGame ⟨0, 5⟩ 1 demoRng rfl rfl rfl (by decide)).1 rfl
      (by decide) (by decide) : _),
   ((claim_C4 solidDemoGame ⟨0, 5⟩ 1 demoRng rfl rfl rfl (by decide)).2.2 rfl : _)⟩

/-- Claim C6: for an alive, unpaused step that does not end in a collision
(the effective new head is not a body cell, and with solid walls the
candidate is in range), whenever the step returns: eating the apple
increases the score by exactly 1 and the body length by exactly 1 net (the
tail is not popped), and a non-eating step leaves the score unchanged and
the body length constant (head prepended, tail removed). -/
theorem claim_C6 (g : Game) (hd : Pos) (fuel : ℕ) (r : Rng)
    (halive : g.alive = true) (hpaused : g.paused = false)
    (hhead : g.snake.head? = Option.some hd)
    (hwall : g.wrapWorld = false → inGrid (candPos hd g.dir))
    (hfree :
      (if g.wrapWorld then
        (⟨wrapX (candPos hd g.dir).x, wrapY (candPos hd g.dir).y⟩ : Pos)
       else candPos hd g.dir) ∉ g.snakeSet) :
    (Game.update fuel r g).elim True fun p =>
      ((if g.wrapWorld then
          (⟨wrapX (candPos hd g.dir).x, wrapY (candPos hd g.dir).y⟩ : Pos)
        else candPos hd g.dir) = g.apple →
        p.1.score = g.score + 1 ∧ p.1.snake.length = g.snake.length + 1) ∧
      ((if g.wrapWorld then
          (⟨wrapX (candPos hd g.dir).x, wrapY (candPos hd g.dir).y⟩ : Pos)
        else candPos hd g.dir) ≠ g.apple →
        p.1.score = g.score ∧ p.1.snake.length = g.snake.length) := by
  unfold Game.update
  rw [halive, hpaused, hhead]
  simp only [not_true, false_or, if_false, Bool.false_eq_true]
  cases hw : g.wrapWorld with
  | true =>
    rw [hw] at hfree
    simp only [if_true] at hfree ⊢
    unfold Game.updateMove
    rw [if_neg hfree]
    by_cases happle :
        (⟨wrapX (candPos hd g.dir).x, wrapY (candPos hd g.dir).y⟩ : Pos) = g.apple
    · rw [if_pos happle]
      cases hpa : placeApple fuel r _ with
      | none => exact trivial
      | some p =>
        obtain ⟨h1, _, h2, _, _, _⟩ := placeApple_some _ _ _ _ hpa
        refine ⟨fun _ => ⟨h2, ?_⟩, fun hne => absurd happle hne⟩
        rw [h1]
        simp
    · rw [if_neg happle]
      refine ⟨fun hc => absurd hc happle, fun _ => ⟨rfl, ?_⟩⟩
      simp [List.length_dropLast]
  | false =>
    rw [hw] at hfree hwall
    simp only [Bool.false_eq_true, if_false] at hfree ⊢
    obtain ⟨hx0, hx40, hy0, hy30⟩ := hwall rfl
    rw [if_neg (by push_neg; exact ⟨hx0, hx40, hy0, hy30⟩)]
    unfold Game.updateMove
    rw [if_neg hfree]
    by_cases happle : candPos hd g.dir = g.apple
    · rw [if_pos happle]
      cases hpa : placeApple fuel r _ with
      | none => exact trivial
      | some p =>
        obtain ⟨h1, _, h2, _, _, _⟩ := placeApple_some _ _ _ _ hpa
        refine ⟨fun _ => ⟨h2, ?_⟩, fun hne => absurd happle hne⟩
        rw [h1]
        simp
    · rw [if_neg happle]
      refine ⟨fun hc => absurd hc happle, fun _ => ⟨rfl, ?_⟩⟩
      simp [List.length_dropLast]

/-- Concrete instance for C6: a plain non-eating step of the demo game keeps
score and body length. -/
theorem claim_C6_witness :
    ((⟨21, 15⟩ : Pos) ∉ demoGame.snakeSet) ∧
    ((Game.update 1 demoRng demoGame).elim True fun p =>
      ((⟨21, 15⟩ : Pos) = demoGame.apple →
        p.1.score = demoGame.score + 1 ∧ p.1.snake.length = demoGame.snake.length + 1) ∧
      ((⟨21, 15⟩ : Pos) ≠ demoGame.apple →
        p.1.score = demoGame.score ∧ p.1.snake.length = demoGame.snake.length)) :=
  ⟨by decide, (claim_C6 demoGame ⟨20, 15⟩ 1 demoRng rfl rfl rfl (by decide) (by decide) : _)⟩

/-- All 1200 cells of the 40×30 grid. -/
def allCells : List Pos :=
  (List.range 40).flatMap fun a => (List.range 30).map fun b => ⟨(a : ℤ), (b : ℤ)⟩

theorem mem_allCells (a b : ℕ) (ha : a < 40) (hb : b < 30) :
    (⟨(a : ℤ), (b : ℤ)⟩ : Pos) ∈ allCells := by
  have h2 : (⟨(a : ℤ), (b : ℤ)⟩ : Pos) ∈
      (List.range 30).map (fun b' : ℕ => (⟨(a : ℤ), (b' : ℤ)⟩ : Pos)) :=
    List.mem_map.mpr ⟨b, List.mem_range.mpr hb, rfl⟩
  exact List.mem_flatMap.mpr ⟨a, List.mem_range.mpr ha, h2⟩

/-- A game one step away from the win condition: the snake occupies every
cell except (0,0), the apple sits at (0,0), and the head at (1,0) is about
to move left onto it. -/
def fullGridGame : Game :=
  { snake := ⟨1, 0⟩ :: (allCells.filter fun p => !(p == ⟨0, 0⟩) && !(p == ⟨1, 0⟩)),
    snakeSet := ⟨1, 0⟩ :: (allCells.filter fun p => !(p == ⟨0, 0⟩) && !(p == ⟨1, 0⟩)),
    dir := Dir.left, apple := ⟨0, 0⟩, alive := true, score := 1196, paused := false,
    lastDeath := DeathCause.noDeath, wrapWorld := true }

/-- A step that eats the apple while every grid cell ends up occupied never
returns: `place_apple` has no free cell to find, for any fuel and any
randomness. -/
theorem update_none_of_no_free (g : Game) (hd : Pos) (fuel : ℕ) (r : Rng)
    (halive : g.alive = true) (hpaused : g.paused = false)
    (hhead : g.snake.head? = Option.some hd)
    (hw : g.wrapWorld = true)
    (hin : inGrid (candPos hd g.dir))
    (hfree : candPos hd g.dir ∉ g.snakeSet)
    (happle : candPos hd g.dir = g.apple)
    (hfull : ∀ a b : ℕ, a < 40 → b < 30 →
      (⟨(a : ℤ), (b : ℤ)⟩ : Pos) ∈ candPos hd g.dir :: g.snakeSet) :
    Game.update fuel r g = Option.none := by
  obtain ⟨hx0, hx40, hy0, hy30⟩ := hin
  unfold Game.update
  rw [halive, hpaused, hhead]
  simp only [not_true, false_or, if_false, Bool.false_eq_true, hw, if_true]
  have hwx : wrapX (candPos hd g.dir).x = (candPos hd g.dir).x := by
    unfold wrapX; rw [if_neg (by omega), if_neg (by omega)]
  have hwy : wrapY (candPos hd g.dir).y = (candPos hd g.dir).y := by
    unfold wrapY; rw [if_neg (by omega), if_neg (by omega)]
  rw [hwx, hwy]
  unfold Game.updateMove
  rw [if_neg hfree, if_pos happle]
  exact placeApple_none_of_full _ (fun a b ha hb => hfull a b ha hb) fuel r

/-- Claim C2 (the divergence): on the full-grid snapshot, the step that eats
the final apple calls `place_apple` with no free cell left and loops
forever — modelled as `Option.none` for every fuel bound — instead of
terminating in a solved state as the spec requires. -/
theorem claim_C2_bug : ∀ fuel r, Game.update fuel r fullGridGame = Option.none := by
  intro fuel r
  apply update_none_of_no_free fullGridGame ⟨1, 0⟩ fuel r rfl rfl rfl rfl (by decide)
  · intro hmem
    rcases List.mem_cons.mp hmem with h | h
    · cases h
    · have := (List.mem_filter.mp h).2
      simp at this
      exact this.1 rfl
  · rfl
  · intro a b ha hb
    show (⟨(a : ℤ), (b : ℤ)⟩ : Pos) ∈ (⟨0, 0⟩ : Pos) :: fullGridGame.snakeSet
    by_cases h0 : (⟨(a : ℤ), (b : ℤ)⟩ : Pos) = ⟨0, 0⟩
    · rw [h0]; exact List.mem_cons_self _ _
    · refine List.mem_cons_of_mem _ ?_
      by_cases h1 : (⟨(a : ℤ), (b : ℤ)⟩ : Pos) = ⟨1, 0⟩
      · rw [h1]
        exact List.mem_cons_self _ _
      · refine List.mem_cons_of_mem _ ?_
        rw [List.mem_filter]
        refine ⟨mem_allCells a b ha hb, ?_⟩
        simp only [Bool.and_eq_true, Bool.not_eq_true', beq_eq_false_iff_ne]
        exact ⟨h0, h1⟩

theorem lookup_qUpdate_self (q : List (ℕ × (ℚ × ℚ × ℚ))) (s : ℕ) (v : ℚ × ℚ × ℚ) :
    List.lookup s (qUpdate q s v) = Option.some v := by
  induction q with
  | nil => simp [qUpdate, List.lookup]
  | cons kv rest ih =>
    obtain ⟨k, w⟩ := kv
    by_cases hk : k = s
    · subst hk
      simp [qUpdate, List.lookup]
    · rw [qUpdate, if_neg hk, List.lookup]
      have : (s == k) = false := beq_eq_false_iff_ne.mpr (Ne.symm hk)
      rw [this]
      exact ih

theorem lookup_qUpdate_ne (q : List (ℕ × (ℚ × ℚ × ℚ))) (s t : ℕ) (v : ℚ × ℚ × ℚ)
    (h : t ≠ s) :
    List.lookup t (qUpdate q s v) = List.lookup t q := by
  induction q with
  | nil =>
    simp [qUpdate, List.lookup, beq_eq_false_iff_ne.mpr h]
  | cons kv rest ih =>
    obtain ⟨k, w⟩ := kv
    by_cases hk : k = s
    · subst hk
      rw [qUpdate, if_pos rfl, List.lookup, List.lookup]
      rw [beq_eq_false_iff_ne.mpr h]
    · rw [qUpdate, if_neg hk, List.lookup, List.lookup]
      cases hbk : t == k with
      | true => rfl
      | false => exact ih

theorem tripleGet_tripleSet (t : ℚ × ℚ × ℚ) (a b : ℕ) (v : ℚ) (ha : a < 3) (hb : b < 3) :
    tripleGet (tripleSet t a v) b = if b = a then v else tripleGet t b := by
  interval_cases a <;> interval_cases b <;> simp [tripleGet, tripleSet]

/-- Claim C7: `QAgent::learn` replaces `Q[s][a]` by
`Q[s][a] + α·(r + γ·max(Q[ns])·[¬done] − Q[s][a])`, reading `Q[ns]` (and
`Q[s]`) through the lazily-zero view — an unseen state reads as `(0,0,0)` —
with the bootstrapped term dropped exactly when `done`; no other
(state, action) entry of the table changes. -/
theorem claim_C7 (ag : QAgent) (s a : ℕ) (rw : ℚ) (ns : ℕ) (done : Bool) (ha : a < 3) :
    tripleGet (qLookup (ag.learn s a rw ns done).q s) a =
      tripleGet (qLookup ag.q s) a +
        ag.alpha * (rw + ag.gamma *
          (if done then 0
           else max (max (qLookup ag.q ns).1 (qLookup ag.q ns).2.1) (qLookup ag.q ns).2.2) -
          tripleGet (qLookup ag.q s) a) ∧
    (∀ t b, b < 3 → ¬(t = s ∧ b = a) →
      tripleGet (qLookup (ag.learn s a rw ns done).q t) b = tripleGet (qLookup ag.q t) b) ∧
    (List.lookup ns ag.q = Option.none → qLookup ag.q ns = (0, 0, 0)) := by
  refine ⟨?_, ?_, ?_⟩
  · show tripleGet (qLookup (qUpdate ag.q s _) s) a = _
    unfold qLookup
    rw [lookup_qUpdate_self]
    rw [Option.getD_some]
    rw [tripleGet_tripleSet _ a a _ ha ha, if_pos rfl]
  · intro t b hb hne
    show tripleGet (qLookup (qUpdate ag.q s _) t) b = _
    by_cases hts : t = s
    · subst hts
      have hba : b ≠ a := fun hba => hne ⟨rfl, hba⟩
      unfold qLookup
      rw [lookup_qUpdate_self, Option.getD_some]
      rw [tripleGet_tripleSet _ a b _ ha hb, if_neg hba]
    · unfold qLookup
      rw [lookup_qUpdate_ne _ _ _ _ hts]
  · intro h
    unfold qLookup
    rw [h]
    rfl

/-- Concrete instance for C7: one `learn` call on a one-entry table. -/
theorem claim_C7_witness :
    tripleGet (qLookup ((QAgent.new).learn 5 0 1 9 false).q 5) 0 =
      tripleGet (qLookup (QAgent.new).q 5) 0 +
        (QAgent.new).alpha * (1 + (QAgent.new).gamma *
          (if false then 0
           else max (max (qLookup (QAgent.new).q 9).1 (qLookup (QAgent.new).q 9).2.1)
             (qLookup (QAgent.new).q 9).2.2) -
          tripleGet (qLookup (QAgent.new).q 5) 0) :=
  (claim_C7 QAgent.new 5 0 1 9 false (by decide)).1

/-- Once the running maximum `m` with its index is installed and every
remaining score is below `m`, the leader scan keeps `m` and the index. -/
theorem leaderFold_keep (l : List ℕ) : ∀ (k m t2 i : ℕ),
    (∀ x ∈ l, x < m) → t2 < m →
    ∃ t2', leaderFold l k (m, t2, Option.some i) = (m, t2', Option.some i) ∧ t2' < m := by
  induction l with
  | nil => intro k m t2 i _ h2; exact ⟨t2, rfl, h2⟩
  | cons sc rest ih =>
    intro k m t2 i hall h2
    have hsc : sc < m := hall sc (List.mem_cons_self _ _)
    rw [leaderFold, if_neg (by omega)]
    by_cases h : t2 < sc
    · rw [if_pos h]
      exact ih (k + 1) m sc i (fun x hx => hall x (List.mem_cons_of_mem _ hx)) hsc
    · rw [if_neg h]
      exact ih (k + 1) m t2 i (fun x hx => hall x (List.mem_cons_of_mem _ hx)) h2

/-- If the scores split as `pre ++ m :: post` with everything else strictly
below `m` and the running maximum still below `m`, the leader scan ends with
top `m`, a second strictly below it, and exactly the index of `m`. -/
theorem leaderFold_reach (pre : List ℕ) : ∀ (post : List ℕ) (k t1 t2 : ℕ) (idx : Option ℕ)
    (m : ℕ), (∀ x ∈ pre, x < m) → (∀ x ∈ post, x < m) → t1 < m → t2 ≤ t1 →
    ∃ t2', leaderFold (pre ++ m :: post) k (t1, t2, idx) =
      (m, t2', Option.some (k + pre.length)) ∧ t2' < m := by
  induction pre with
  | nil =>
    intro post k t1 t2 idx m _ hpost h1 _
    rw [List.nil_append, leaderFold, if_pos h1]
    obtain ⟨t2', heq, hlt⟩ := leaderFold_keep post (k + 1) m t1 k hpost h1
    exact ⟨t2', by simpa using heq, hlt⟩
  | cons x pre' ih =>
    intro post k t1 t2 idx m hpre hpost h1 h2
    have hx : x < m := hpre x (List.mem_cons_self _ _)
    have hpre' : ∀ y ∈ pre', y < m := fun y hy => hpre y (List.mem_cons_of_mem _ hy)
    have hlen : (k + 1) + pre'.length = k + (x :: pre').length := by
      simp [List.length_cons]; omega
    rw [List.cons_append, leaderFold]
    by_cases hc1 : t1 < x
    · rw [if_pos hc1]
      obtain ⟨t2', heq, hlt⟩ :=
        ih post (k + 1) x t1 (Option.some k) m hpre' hpost hx (le_of_lt hc1)
      rw [hlen] at heq
      exact ⟨t2', heq, hlt⟩
    · rw [if_neg hc1]
      by_cases hc2 : t2 < x
      · rw [if_pos hc2]
        obtain ⟨t2', heq, hlt⟩ :=
          ih post (k + 1) t1 x idx m hpre' hpost h1 (le_of_not_lt hc1)
        rw [hlen] at heq
        exact ⟨t2', heq, hlt⟩
      · rw [if_neg hc2]
        obtain ⟨t2', heq, hlt⟩ := ih post (k + 1) t1 t2 idx m hpre' hpost h1 h2
        rw [hlen] at heq
        exact ⟨t2', heq, hlt⟩

/-- The condition of claim C9 as stated: agent `i` strictly out-scores every
other agent. -/
def UniqueStrictLeader (scores : List ℕ) (i : ℕ) : Prop :=
  i < scores.length ∧ ∀ j, j < scores.length → j ≠ i → scores.getD j 0 < scores.getD i 0

/-- Claim C9 (counterexample to the claim as stated): with a single agent of
score 0, the agent vacuously strictly leads all others and is alive, and the
epoch is not over — yet the scan never registers a zero score, leader
protection is off, and the step-limit check does terminate the epoch. -/
theorem claim_C9_cex :
    UniqueStrictLeader [0] 0 ∧
    ((([demoGame])[0]?).map Game.alive).getD false = true ∧
    allAgentsDone [0] [demoGame] 1197 = false ∧
    leaderProtected [0] [demoGame] = false ∧
    epochEnds (allAgentsDone [0] [demoGame] 1197) 4000 4000
      (leaderProtected [0] [demoGame]) = true :=
  ⟨⟨by decide, by decide⟩, by decide, by decide, by decide, by decide⟩

/-- Claim C9 (amended): when exactly one agent strictly leads all others
with a strictly positive score and its game is alive, leader protection is
in effect, the step-limit check is ignored, and the termination decision
reduces to "every agent is done (dead or at the target score)". -/
theorem claim_C9 (scores : List ℕ) (games : List Game) (i : ℕ)
    (hu : UniqueStrictLeader scores i)
    (hpos : 0 < scores.getD i 0)
    (halive : ((games[i]?).map Game.alive).getD false = true) :
    leaderProtected scores games = true ∧
    ∀ steps limit target,
      epochEnds (allAgentsDone scores games target) steps limit
        (leaderProtected scores games) = allAgentsDone scores games target := by
  obtain ⟨hi, hlt⟩ := hu
  have hgetd : scores.getD i 0 = scores[i] := List.getD_eq_getElem scores 0 hi
  have hdecomp : scores = scores.take i ++ scores.getD i 0 :: scores.drop (i + 1) := by
    conv_lhs => rw [← List.take_append_drop i scores]
    rw [List.drop_eq_getElem_cons hi, hgetd]
  have hpre : ∀ x ∈ scores.take i, x < scores.getD i 0 := by
    intro x hx
    obtain ⟨j, hj, hxj⟩ := List.mem_iff_getElem.mp hx
    have hj2 : j < i := by
      have := hj; simp [List.length_take] at this; omega
    have hj3 : j < scores.length := by
      have := hj; simp [List.length_take] at this; omega
    have : scores[j] = x := by rw [← hxj]; simp [List.getElem_take]
    rw [← this, ← List.getD_eq_getElem scores 0 hj3]
    exact hlt j hj3 (by omega)
  have hpost : ∀ x ∈ scores.drop (i + 1), x < scores.getD i 0 := by
    intro x hx
    obtain ⟨j, hj, hxj⟩ := List.mem_iff_getElem.mp hx
    have hj3 : i + 1 + j < scores.length := by
      have := hj; simp [List.length_drop] at this; omega
    have : scores[i + 1 + j] = x := by rw [← hxj]; exact (List.getElem_drop _).symm
    rw [← this, ← List.getD_eq_getElem scores 0 hj3]
    exact hlt (i + 1 + j) hj3 (by omega)
  obtain ⟨t2', heq, hlt2⟩ :=
    leaderFold_reach (scores.take i) (scores.drop (i + 1)) 0 0 0 Option.none
      (scores.getD i 0) hpre hpost hpos (le_refl 0)
  have hidx : 0 + (scores.take i).length = i := by
    simp [List.length_take]; omega
  rw [hidx] at heq
  have hprot : leaderProtected scores games = true := by
    unfold leaderProtected
    conv_lhs => rw [hdecomp]
    rw [heq]
    show (decide (t2' < scores.getD i 0) && ((games[i]?).map Game.alive).getD false) = true
    rw [halive, decide_eq_true hlt2]
    rfl
  refine ⟨hprot, fun steps limit target => ?_⟩
  rw [hprot]
  unfold epochEnds
  simp

/-- Concrete instance for C9: two agents with scores 2 and 1, both alive —
the unique leader is protected and the termination decision equals the
all-done aggregate even past the step limit. -/
theorem claim_C9_witness :
    leaderProtected [2, 1] [demoGame, demoGame] = true ∧
    epochEnds (allAgentsDone [2, 1] [demoGame, demoGame] 1197) 5000 4000
      (leaderProtected [2, 1] [demoGame, demoGame]) =
      allAgentsDone [2, 1] [demoGame, demoGame] 1197 :=
  ⟨(claim_C9 [2, 1] [demoGame, demoGame] 0 ⟨by decide, by decide⟩ (by decide) (by decide)).1,
   (claim_C9 [2, 1] [demoGame, demoGame] 0 ⟨by decide, by decide⟩ (by decide) (by decide)).2
     5000 4000 1197⟩

theorem leaderFold_zeros (l : List ℕ) : ∀ k, (∀ x ∈ l, x = 0) →
    leaderFold l k (0, 0, Option.none) = (0, 0, Option.none) := by
  induction l with
  | nil => intro k _; rfl
  | cons sc rest ih =>
    intro k h
    have hsc : sc = 0 := h sc (List.mem_cons_self _ _)
    rw [leaderFold, if_neg (by omega), if_neg (by omega)]
    exact ih (k + 1) fun x hx => h x (List.mem_cons_of_mem _ hx)

/-- Claim C10: when every score is 0 the leader scan never records an index
(a score must strictly exceed the zero-initialised running top), so leader
protection is off — whatever the games, even a single alive agent — and the
epoch terminates as soon as `steps_taken` reaches `step_limit`. -/
theorem claim_C10 (scores : List ℕ) (games : List Game) (h : ∀ x ∈ scores, x = 0) :
    leaderProtected scores games = false ∧
    ∀ target steps limit, limit ≤ steps →
      epochEnds (allAgentsDone scores games target) steps limit
        (leaderProtected scores games) = true := by
  have hfold := leaderFold_zeros scores 0 h
  have hprot : leaderProtected scores games = false := by
    unfold leaderProtected
    rw [hfold]
  refine ⟨hprot, fun target steps limit hle => ?_⟩
  rw [hprot]
  unfold epochEnds
  simp [hle]

/-- Concrete instance for C10: a single alive zero-score agent is cut off
exactly at the step limit. -/
theorem claim_C10_witness :
    leaderProtected [0] [demoGame] = false ∧
    epochEnds (allAgentsDone [0] [demoGame] 1197) 4000 4000
      (leaderProtected [0] [demoGame]) = true :=
  ⟨(claim_C10 [0] [demoGame] (by decide)).1,
   (claim_C10 [0] [demoGame] (by decide)).2 1197 4000 4000 (le_refl _)⟩

theorem padLoop_length (mk : Rng → QAgent × Rng) :
    ∀ (n : ℕ) (acc : List QAgent) (r : Rng),
      (padLoop mk n acc r).1.length = acc.length + n := by
  intro n
  induction n with
  | zero => intro acc r; simp [padLoop]
  | succ k ih =>
    intro acc r
    rw [padLoop]
    rcases hmk : mk r with ⟨a, r1⟩
    dsimp only
    rw [ih (acc ++ [a]) r1]
    simp
    omega

theorem freshAgents_length (colors : List (ℕ × ℕ × ℕ)) (b : Bool) :
    (freshAgents colors b).length = colors.length := by
  simp [freshAgents]

theorem generatePopulationColors_length (n : ℕ) :
    (generatePopulationColors n).length = n := by
  unfold generatePopulationColors
  rw [List.length_map]
  exact List.length_range n

theorem sortIdx_length (scores : List ℕ) (n : ℕ) : (sortIdx scores n).length = n := by
  simp [sortIdx]

theorem sortIdx_headD_lt (scores : List ℕ) (n : ℕ) (h : 0 < n) :
    (sortIdx scores n).headD 0 < n := by
  have hlen : (sortIdx scores n).length = n := sortIdx_length scores n
  cases hs : sortIdx scores n with
  | nil => rw [hs] at hlen; simp at hlen; omega
  | cons a rest =>
    have ha : a ∈ sortIdx scores n := hs ▸ List.mem_cons_self _ _
    have ha2 : a ∈ List.range n := by
      unfold sortIdx at ha
      exact (List.perm_insertionSort _ _).mem_iff.mp ha
    simpa using List.mem_range.mp ha2

theorem usizeSub_le (a b : ℕ) (hba : b ≤ a) (ha : a < 2 ^ 64) : usizeSub a b = a - b := by
  unfold usizeSub
  have hp : (2 : ℕ) ^ 64 = 18446744073709551616 := by norm_num
  rw [hp] at ha ⊢
  omega

theorem usizeSub_gt (a b : ℕ) (hab : a < b) (hb : b ≤ a + 2 ^ 64) :
    usizeSub a b = a + 2 ^ 64 - b := by
  unfold usizeSub
  have hp : (2 : ℕ) ^ 64 = 18446744073709551616 := by norm_num
  rw [hp] at hb ⊢
  omega

theorem tierPop_length (r : Rng) (rc : ℕ) (champ : QAgent) (n : ℕ)
    (hn : 1 ≤ n) (hb : n < 2 ^ 64) :
    (tierPop r rc champ n).1.length = n := by
  have hp : (2 : ℕ) ^ 64 = 18446744073709551616 := by norm_num
  have tail_len : ∀ (count : ℕ) (sigma : ℚ) (range : ℕ) (boost : Bool),
      count + 1 ≤ n →
      ((padLoop (champChild champ sigma range true) count [champ] r).1 ++
        freshAgents
          (generatePopulationColors
            (usizeSub n
              (padLoop (champChild champ sigma range true) count [champ] r).1.length))
          boost).length = n := by
    intro count sigma range boost hcount
    rw [List.length_append, freshAgents_length, generatePopulationColors_length,
        padLoop_length]
    rw [usizeSub_le _ _ (by simp; omega) hb]
    simp
    omega
  rcases rc with _ | _ | _ | _ | _ | k
  · exact tail_len (n / 10 - 1) 0.8 60 true (by omega)
  · show (padLoop (champChild champ 0.25 20 true) (n - 1) [champ] r).1.length = n
    rw [padLoop_length]
    simp
    omega
  · exact tail_len (n / 2 - 1) 0.4 30 false (by omega)
  · exact tail_len (n * 3 / 10 - 1) 0.35 40 false (by omega)
  · exact tail_len (n / 5 - 1) 0.6 50 false (by omega)
  · exact tail_len (n / 10 - 1) 0.8 60 true (by omega)

theorem steadyPop_length (r : Rng) (idxs : List ℕ) (pop : List QAgent) (n : ℕ)
    (hidx : idxs.length = n) (hb : n < 2 ^ 64) :
    (steadyPop r idxs pop n).1.length = n := by
  have hp : (2 : ℕ) ^ 64 = 18446744073709551616 := by norm_num
  unfold steadyPop
  have helites : ((idxs.take (min 3 n)).map fun i => pop.getD i QAgent.new).length
      = min 3 n := by
    simp [hidx]
  have hacc2 : (padLoop (steadyChild idxs (min 3 n) pop) 4
      ((idxs.take (min 3 n)).map fun i => pop.getD i QAgent.new) r).1.length
      = min 3 n + 4 := by
    rw [padLoop_length, helites]
  by_cases hcase : min 3 n + 4 ≤ n
  · have hsub : usizeSub n (min 3 n + 4) = n - (min 3 n + 4) :=
      usizeSub_le _ _ hcase hb
    simp only [hacc2, hsub, List.length_append, freshAgents_length,
      generatePopulationColors_length]
    split_ifs with h1 h2
    · simp only [List.length_append, freshAgents_length, generatePopulationColors_length,
        hacc2]
      omega
    · simp only [List.length_take, List.length_append, freshAgents_length,
        generatePopulationColors_length, hacc2]
      omega
    · simp only [List.length_append, freshAgents_length, generatePopulationColors_length,
        hacc2]
      omega
  · have hsub : usizeSub n (min 3 n + 4) = n + 2 ^ 64 - (min 3 n + 4) :=
      usizeSub_gt _ _ (by omega) (by omega)
    have hmin : min 3 (n + 2 ^ 64 - (min 3 n + 4)) = 3 := by
      rw [hp] at hb ⊢
      omega
    simp only [hacc2, hsub, hmin, List.length_append, freshAgents_length,
      generatePopulationColors_length]
    split_ifs with h1 h2
    · omega
    · simp only [List.length_take, List.length_append, freshAgents_length,
        generatePopulationColors_length, hacc2]
      omega
    · omega

theorem reproduceCore_length (r : Rng) (t1 : EvoTrainer) (idxs : List ℕ) (nc : Bool)
    (hn : 1 ≤ t1.popSize) (hb : t1.popSize < 2 ^ 64) (hidx : idxs.length = t1.popSize) :
    (reproduceCore r t1 idxs nc).1.1.length = t1.popSize := by
  unfold reproduceCore
  cases t1.champion with
  | none =>
    simp only
    exact steadyPop_length r idxs t1.pop t1.popSize hidx hb
  | some champ =>
    simp only
    split_ifs with h1 h5 h2
    · exact tierPop_length r _ champ t1.popSize hn hb
    · exact tierPop_length r _ champ t1.popSize hn hb
    · show (padLoop (champChild champ 0.15 25 false) (t1.popSize - 1) [champ] r).1.length
        = t1.popSize
      rw [padLoop_length]
      simp
      omega
    · exact steadyPop_length r idxs t1.pop t1.popSize hidx hb

theorem resetGames_length (fuel : ℕ) (wrap : Bool) :
    ∀ (n : ℕ) (r : Rng) (gs : List Game) (p : List Game × Rng),
      resetGames fuel wrap n r gs = Option.some p → p.1.length = gs.length := by
  intro n
  induction n with
  | zero =>
    intro r gs p h
    rw [resetGames] at h
    cases h
    rfl
  | succ k ih =>
    intro r gs p h
    cases gs with
    | nil => rw [resetGames] at h; cases h
    | cons g gs' =>
      rw [resetGames] at h
      rcases hnew : Game.newWithWrap fuel r wrap with _ | ⟨fresh, r1⟩ <;> rw [hnew] at h
      · cases h
      · dsimp only at h
        rcases hrest : resetGames fuel wrap k r1 gs' with _ | ⟨restGames, r2⟩ <;>
          rw [hrest] at h
        · cases h
        · dsimp only at h
          cases h
          simp [ih _ _ _ hrest]

theorem resetEpoch_spec (fuel : ℕ) (r : Rng) (t : EvoTrainer) (p : EvoTrainer × Rng)
    (h : EvoTrainer.resetEpoch fuel r t = Option.some p) :
    p.1.pop = t.pop ∧ p.1.games.length = t.games.length ∧
    p.1.scores.length = t.scores.length ∧ p.1.champion = t.champion ∧
    p.1.championScore = t.championScore ∧ p.1.championEpoch = t.championEpoch := by
  unfold EvoTrainer.resetEpoch at h
  cases hres : resetGames fuel t.wrapWorld t.popSize r t.games with
  | none => rw [hres] at h; cases h
  | some q =>
    obtain ⟨gs, r1⟩ := q
    rw [hres] at h
    cases h
    refine ⟨rfl, ?_, by simp, rfl, rfl, rfl⟩
    exact resetGames_length _ _ _ _ _ _ hres

theorem reproT1_popSize (t : EvoTrainer) : (reproT1 t).popSize = t.popSize := by
  unfold reproT1; split <;> rfl

theorem reproT1_pop (t : EvoTrainer) : (reproT1 t).pop = t.pop := by
  unfold reproT1; split <;> rfl

theorem reproT1_games (t : EvoTrainer) : (reproT1 t).games = t.games := by
  unfold reproT1; split <;> rfl

theorem reproT1_scores (t : EvoTrainer) : (reproT1 t).scores = t.scores := by
  unfold reproT1; split <;> rfl

theorem reproT1_epoch (t : EvoTrainer) : (reproT1 t).epoch = t.epoch := by
  unfold reproT1; split <;> rfl

theorem reproT1_championScore (t : EvoTrainer) :
    (reproT1 t).championScore =
      if t.championScore < reproBestScore t then reproBestScore t
      else t.championScore := by
  unfold reproT1; split <;> simp_all

theorem reproT1_championEpoch (t : EvoTrainer) :
    (reproT1 t).championEpoch =
      if t.championScore < reproBestScore t then t.epoch else t.championEpoch := by
  unfold reproT1; split <;> simp_all

theorem reproT1_champion (t : EvoTrainer) :
    (reproT1 t).champion =
      if t.championScore < reproBestScore t then
        Option.some (t.pop.getD (reproBestIdx t) QAgent.new)
      else t.champion := by
  unfold reproT1; split <;> simp_all

/-- The trainer handed to `reset_epoch` at the end of `reproduce`. -/
def reproPreReset (r : Rng) (t : EvoTrainer) : EvoTrainer :=
  { reproT1 t with
    pop := (reproduceCore r (reproT1 t) (sortIdx t.scores t.popSize)
      (decide (t.championScore < reproBestScore t))).1.1,
    restartCount := (reproduceCore r (reproT1 t) (sortIdx t.scores t.popSize)
      (decide (t.championScore < reproBestScore t))).1.2.1,
    epochsWithoutImprovement := (reproduceCore r (reproT1 t)
      (sortIdx t.scores t.popSize)
      (decide (t.championScore < reproBestScore t))).1.2.2,
    epoch := (reproT1 t).epoch + 1 }

theorem reproduce_eq (fuel : ℕ) (r : Rng) (t : EvoTrainer) :
    EvoTrainer.reproduce fuel r t =
      EvoTrainer.resetEpoch fuel
        (reproduceCore r (reproT1 t) (sortIdx t.scores t.popSize)
          (decide (t.championScore < reproBestScore t))).2
        (reproPreReset r t) := rfl

/-- Claim C1: whenever `reproduce` returns — in each of its branches — the
agents, games and scores vectors all have length exactly the population
size `N ≥ 1` again (`usize` subtraction is modelled with release-mode
wraparound, hence the `N < 2^64` machine bound). -/
theorem claim_C1 (t : EvoTrainer) (N : ℕ) (hN : t.popSize = N) (h1 : 1 ≤ N)
    (hb : N < 2 ^ 64) (hs : t.scores.length = N) (hg : t.games.length = N)
    (fuel : ℕ) (r : Rng) :
    (EvoTrainer.reproduce fuel r t).elim True fun p =>
      p.1.pop.length = N ∧ p.1.games.length = N ∧ p.1.scores.length = N := by
  rw [reproduce_eq]
  cases hres : EvoTrainer.resetEpoch fuel
      (reproduceCore r (reproT1 t) (sortIdx t.scores t.popSize)
        (decide (t.championScore < reproBestScore t))).2
      (reproPreReset r t) with
  | none => exact trivial
  | some p =>
    obtain ⟨hpop, hgames, hscores, _, _, _⟩ := resetEpoch_spec _ _ _ _ hres
    refine ⟨?_, ?_, ?_⟩
    · rw [hpop]
      show (reproduceCore r (reproT1 t) (sortIdx t.scores t.popSize) _).1.1.length = N
      rw [reproduceCore_length r (reproT1 t) _ _ (by rw [reproT1_popSize, hN]; exact h1)
        (by rw [reproT1_popSize, hN]; exact hb)
        (by rw [sortIdx_length, reproT1_popSize])]
      rw [reproT1_popSize, hN]
    · rw [hgames]
      show (reproT1 t).games.length = N
      rw [reproT1_games, hg]
    · rw [hscores]
      show (reproT1 t).scores.length = N
      rw [reproT1_scores, hs]

/-- A one-agent trainer snapshot used for concrete instantiations. -/
def demoTrainer : EvoTrainer :=
  { training := true, solved := false, pop := [QAgent.new], popSize := 1, current := 0,
    epoch := 0, epochBest := [], scores := [0], stepLimit := 4000, stepsTaken := 120,
    targetScore := 1197, bestScore := 0, games := [demoGame], champion := Option.none,
    championScore := 0, championEpoch := 0, epochsWithoutImprovement := 0,
    restartCount := 0, wrapWorld := true }

/-- Concrete instance for C1: the one-agent demo trainer reproduces to a
population, game vector and score vector of length 1 — and the call does
return (`isSome`). -/
theorem claim_C1_witness :
    (EvoTrainer.reproduce 1 demoRng demoTrainer).isSome = true ∧
    ((EvoTrainer.reproduce 1 demoRng demoTrainer).elim True fun p =>
      p.1.pop.length = 1 ∧ p.1.games.length = 1 ∧ p.1.scores.length = 1) :=
  ⟨by rfl,
   claim_C1 demoTrainer 1 rfl (by decide) (by norm_num) rfl rfl 1 demoRng⟩

theorem reproduce_champFields (fuel : ℕ) (r : Rng) (t : EvoTrainer) (p : EvoTrainer × Rng)
    (h : EvoTrainer.reproduce fuel r t = Option.some p) :
    p.1.championScore =
      (if t.championScore < reproBestScore t then reproBestScore t
       else t.championScore) ∧
    p.1.championEpoch =
      (if t.championScore < reproBestScore t then t.epoch else t.championEpoch) ∧
    p.1.champion =
      (if t.championScore < reproBestScore t then
        Option.some (t.pop.getD (reproBestIdx t) QAgent.new)
      else t.champion) := by
  rw [reproduce_eq] at h
  obtain ⟨_, _, _, hch, hcs, hce⟩ := resetEpoch_spec _ _ _ _ h
  refine ⟨?_, ?_, ?_⟩
  · rw [hcs]
    show (reproT1 t).championScore = _
    exact reproT1_championScore t
  · rw [hce]
    show (reproT1 t).championEpoch = _
    exact reproT1_championEpoch t
  · rw [hch]
    show (reproT1 t).champion = _
    exact reproT1_champion t

theorem reproduce_champScore_mono (fuel : ℕ) (r : Rng) (t : EvoTrainer)
    (p : EvoTrainer × Rng) (h : EvoTrainer.reproduce fuel r t = Option.some p) :
    t.championScore ≤ p.1.championScore := by
  rw [(reproduce_champFields fuel r t p h).1]
  split_ifs with hc
  · exact le_of_lt hc
  · exact le_refl _

theorem reproBestScore_le (t : EvoTrainer)
    (hle : ∀ s ∈ t.scores, s ≤ t.championScore) :
    reproBestScore t ≤ t.championScore := by
  unfold reproBestScore
  by_cases hidx : reproBestIdx t < t.scores.length
  · refine hle _ ?_
    rw [List.getD_eq_getElem _ _ hidx]
    exact List.getElem_mem _
  · rw [List.getD_eq_default _ _ (le_of_not_lt hidx)]
    exact Nat.zero_le _

theorem reproBestScore_mem (t : EvoTrainer) (hpos : 0 < reproBestScore t) :
    reproBestScore t ∈ t.scores := by
  unfold reproBestScore at hpos ⊢
  by_cases hidx : reproBestIdx t < t.scores.length
  · rw [List.getD_eq_getElem _ _ hidx]
    exact List.getElem_mem _
  · rw [List.getD_eq_default _ _ (le_of_not_lt hidx)] at hpos
    omega

/-- A whole training run at the trainer level: each epoch ends with some
final score and game vector (produced by the stepping phase, arbitrary
here) and a `reproduce` call.  Champion fields are only ever touched by
`reproduce`. -/
def runEpochs (fuel : ℕ) : List (List ℕ × List Game × Rng) → EvoTrainer → Option EvoTrainer
  | [], t => Option.some t
  | (sc, gs, r) :: rest, t =>
    match EvoTrainer.reproduce fuel r { t with scores := sc, games := gs } with
    | Option.none => Option.none
    | Option.some (t', _) => runEpochs fuel rest t'

theorem runEpochs_mono (fuel : ℕ) : ∀ (inputs : List (List ℕ × List Game × Rng))
    (t : EvoTrainer),
    (runEpochs fuel inputs t).elim True fun t' =>
      t.championScore ≤ t'.championScore := by
  intro inputs
  induction inputs with
  | nil => intro t; exact le_refl _
  | cons x rest ih =>
    intro t
    obtain ⟨sc, gs, r⟩ := x
    rw [runEpochs]
    cases hrep : EvoTrainer.reproduce fuel r { t with scores := sc, games := gs } with
    | none => exact trivial
    | some q =>
      obtain ⟨t', r'⟩ := q
      dsimp only
      have h1 : t.championScore ≤ t'.championScore :=
        reproduce_champScore_mono fuel r _ _ hrep
      have h2 := ih t'
      cases hrun : runEpochs fuel rest t' with
      | none => exact trivial
      | some t'' =>
        rw [hrun] at h2
        exact le_trans h1 h2

/-- Claim C8: `champion_score` never decreases across a `reproduce` call nor
across any sequence of epochs; the champion snapshot, score and epoch are
left unchanged when no agent's epoch-end score strictly exceeds the previous
champion score, they only change when some score strictly exceeds it, and on
a strict improvement they are set to the best score, the current epoch, and
a snapshot of the best-ranked agent. -/
theorem claim_C8 (t : EvoTrainer) (fuel : ℕ) (r : Rng) :
    ((EvoTrainer.reproduce fuel r t).elim True fun p =>
      t.championScore ≤ p.1.championScore) ∧
    ((∀ s ∈ t.scores, s ≤ t.championScore) →
      (EvoTrainer.reproduce fuel r t).elim True fun p =>
        p.1.champion = t.champion ∧ p.1.championScore = t.championScore ∧
        p.1.championEpoch = t.championEpoch) ∧
    ((EvoTrainer.reproduce fuel r t).elim True fun p =>
      (p.1.championScore ≠ t.championScore ∨ p.1.championEpoch ≠ t.championEpoch ∨
        p.1.champion ≠ t.champion) →
      ∃ s ∈ t.scores, t.championScore < s) ∧
    (t.championScore < reproBestScore t →
      (EvoTrainer.reproduce fuel r t).elim True fun p =>
        p.1.championScore = reproBestScore t ∧ p.1.championEpoch = t.epoch ∧
        p.1.champion = Option.some (t.pop.getD (reproBestIdx t) QAgent.new)) ∧
    (∀ inputs : List (List ℕ × List Game × Rng),
      (runEpochs fuel inputs t).elim True fun t' =>
        t.championScore ≤ t'.championScore) := by
  refine ⟨?_, ?_, ?_, ?_, fun inputs => runEpochs_mono fuel inputs t⟩
  · cases hrep : EvoTrainer.reproduce fuel r t with
    | none => exact trivial
    | some p => exact reproduce_champScore_mono fuel r t p hrep
  · intro hle
    cases hrep : EvoTrainer.reproduce fuel r t with
    | none => exact trivial
    | some p =>
      obtain ⟨h1, h2, h3⟩ := reproduce_champFields fuel r t p hrep
      have hnot : ¬ t.championScore < reproBestScore t :=
        not_lt.mpr (reproBestScore_le t hle)
      rw [if_neg hnot] at h1 h2 h3
      exact ⟨h3, h1, h2⟩
  · cases hrep : EvoTrainer.reproduce fuel r t with
    | none => exact trivial
    | some p =>
      intro hchange
      obtain ⟨h1, h2, h3⟩ := reproduce_champFields fuel r t p hrep
      by_cases hc : t.championScore < reproBestScore t
      · exact ⟨reproBestScore t,
          reproBestScore_mem t (Nat.lt_of_le_of_lt (Nat.zero_le _) hc), hc⟩
      · exfalso
        rw [if_neg hc] at h1 h2 h3
        rcases hchange with h | h | h
        · exact h h1
        · exact h h2
        · exact h h3
  · intro hc
    cases hrep : EvoTrainer.reproduce fuel r t with
    | none => exact trivial
    | some p =>
      obtain ⟨h1, h2, h3⟩ := reproduce_champFields fuel r t p hrep
      rw [if_pos hc] at h1 h2 h3
      exact ⟨h1, h2, h3⟩

/-- Concrete instance for C8: a scoreless epoch of the demo trainer leaves
all champion fields unchanged, a one-epoch run keeps `champion_score`
non-decreasing, and the `reproduce` call does return. -/
theorem claim_C8_witness :
    ((EvoTrainer.reproduce 1 demoRng demoTrainer).elim True fun p =>
      p.1.champion = demoTrainer.champion ∧
      p.1.championScore = demoTrainer.championScore ∧
      p.1.championEpoch = demoTrainer.championEpoch) ∧
    ((runEpochs 1 [([0], [demoGame], demoRng)] demoTrainer).elim True fun t' =>
      demoTrainer.championScore ≤ t'.championScore) ∧
    (EvoTrainer.reproduce 1 demoRng demoTrainer).isSome = true :=
  ⟨(claim_C8 demoTrainer 1 demoRng).2.1 (by decide),
   (claim_C8 demoTrainer 1 demoRng).2.2.2.2 [([0], [demoGame], demoRng)],
   by rfl⟩
